import Mathlib

/-!
Shallow embedding of the srcrs codec suite: the KV (KeyValues) text parser
(src/kv/char_reader.rs and src/kv/reader.rs) and the VPK archive reader
(src/vpk/reader.rs), translated from the Rust source.

Conventions:
* A byte stream is a `List Nat` (one element per byte; the Rust code reads
  bytes and casts each with `as char`, i.e. Latin-1).
* Rust `Result` values become `Except`/`VRes`; a Rust panic (out-of-range
  slice index, `expect`, `unwrap_char` on a non-character token) is a
  separate outcome constructor, never an ordinary error.
* Release-build integer semantics are used: overflowing `usize`/`u64`
  arithmetic wraps, `debug_assert!` is elided.  Slice-bound checks panic
  in every build and are modelled as panics.
* Loops that Rust runs unboundedly are given explicit fuel; every call
  site initialises the fuel from the length of the remaining input, which
  dominates the number of iterations because every iteration consumes at
  least one input byte.
-/

namespace Srcrs

/-- `HashMap::insert` modelled extensionally on an association list:
the new binding replaces any previous binding of the same key. -/
def insertAssoc {α β : Type} [DecidableEq α] (k : α) (v : β) (l : List (α × β)) :
    List (α × β) :=
  (k, v) :: l.filter (fun p => decide (p.1 ≠ k))

/-- `HashMap::get` on the association-list model. -/
def lookupAssoc {α β : Type} [DecidableEq α] (k : α) (l : List (α × β)) : Option β :=
  (l.find? (fun p => decide (p.1 = k))).map (·.2)

/-- Number of bindings a key has in the association-list model. -/
def countKey {α β : Type} [DecidableEq α] (k : α) (l : List (α × β)) : Nat :=
  (l.filter (fun p => decide (p.1 = k))).length

namespace KV

/-- Classified character produced by `CharReader` (src/kv/char_reader.rs). -/
inductive ReadChar where
  | normal (c : Nat)
  | escaped (c : Nat)
  | whitespace
  | eof
deriving DecidableEq, Repr

/-- Errors of the KV reader (`ReaderError` in src/kv/reader.rs).
`ioInvalidChar` is the `ReaderError::IO` wrapping of the char reader's
"Invalid char at position …" error; `outOfFuel` is an artifact of the
fueled embedding; `panicked` models a Rust panic (`unwrap_char` on a
token that carries no character). -/
inductive ReaderError where
  | ioInvalidChar
  | invalidChar (c : ReadChar)
  | unexpectedEof
  | outOfFuel
  | panicked
deriving DecidableEq, Repr

/-- Rust `char::is_whitespace` restricted to bytes read `as char`
(Latin-1): space, tab, LF, VT, FF, CR, NEL (0x85) and NBSP (0xA0). -/
def isWs (c : Nat) : Bool :=
  c = 32 || c = 9 || c = 10 || c = 11 || c = 12 || c = 13 || c = 133 || c = 160

/-- State of `CharReader`: the unread input (the fixed-size read buffer is
transparent), the current classified token (`last_token`) and the quote
flag (`is_quoted`). -/
structure CRState where
  input : List Nat
  lastToken : ReadChar
  isQuoted : Bool
deriving DecidableEq, Repr

/-- `CharReader::consume_comment`: consume characters through the first
newline (inclusive), or all remaining input. -/
def consumeComment : List Nat → List Nat
  | [] => []
  | c :: rest => if c = 10 then rest else consumeComment rest

/-- `CharReader::advance_internal`: classify one source character.
The escape check comes first, so it also applies inside quotes; `//`
outside quotes consumes a comment and classifies as whitespace; `"`
toggles the quote flag; inside quotes every other character is normal. -/
def advanceInternal (s : CRState) : Except ReaderError CRState :=
  match s.input with
  | [] => .ok { s with lastToken := .eof }
  | c :: rest =>
    if c = 92 then
      match rest with
      | [] => .error .ioInvalidChar
      | d :: rest2 => .ok { input := rest2, lastToken := .escaped d, isQuoted := s.isQuoted }
    else if c = 47 then
      if s.isQuoted then
        .ok { input := rest, lastToken := .normal c, isQuoted := s.isQuoted }
      else
        match rest with
        | [] => .ok { input := rest, lastToken := .normal c, isQuoted := s.isQuoted }
        | d :: _ =>
          if d = 47 then
            .ok { input := consumeComment rest, lastToken := .whitespace,
                  isQuoted := s.isQuoted }
          else
            .ok { input := rest, lastToken := .normal c, isQuoted := s.isQuoted }
    else if c = 34 then
      .ok { input := rest, lastToken := .normal c, isQuoted := !s.isQuoted }
    else if s.isQuoted then
      .ok { input := rest, lastToken := .normal c, isQuoted := s.isQuoted }
    else if isWs c then
      .ok { input := rest, lastToken := .whitespace, isQuoted := s.isQuoted }
    else
      .ok { input := rest, lastToken := .normal c, isQuoted := s.isQuoted }

/-- The whitespace-collapsing loop inside `CharReader::advance`. -/
def skipWsF : Nat → CRState → Except ReaderError CRState
  | 0, _ => .error .outOfFuel
  | fuel + 1, s => do
    let s' ← advanceInternal s
    if s'.lastToken = .whitespace then skipWsF fuel s' else .ok s'

/-- `CharReader::advance`: when the current token is whitespace, classify
until a non-whitespace token appears; otherwise classify exactly once. -/
def crAdvance (s : CRState) : Except ReaderError CRState :=
  if s.lastToken = .whitespace then skipWsF (s.input.length + 1) s
  else advanceInternal s

/-- `CharReader::from_io`: the reader starts on a whitespace token and is
advanced once, so the first real token is pre-read. -/
def crInit (input : List Nat) : Except ReaderError CRState :=
  crAdvance { input := input, lastToken := .whitespace, isQuoted := false }

/-- `KeyValues::advance_whitespace`: advance once and once more when the
new token is whitespace. -/
def advWs (s : CRState) : Except ReaderError CRState := do
  let s' ← crAdvance s
  if s'.lastToken = .whitespace then crAdvance s' else .ok s'

/-- `ReadChar::unwrap_char` as an option; `none` corresponds to the Rust
panic on `Whitespace`/`Eof`. -/
def unwrapCharO : ReadChar → Option Nat
  | .normal c => some c
  | .escaped c => some c
  | _ => none

/-- `KeyValues::is_unquoted_text_char`: a normal `{`, `}`, `[`, `"` or
whitespace ends an unquoted token; every escaped character is text. -/
def isUnquotedTextChar : ReadChar → Bool
  | .normal c => if c = 123 || c = 125 || c = 91 || c = 34 then false else !(isWs c)
  | .escaped _ => true
  | _ => false

/-- The loop of `KeyValues::visit_text_quoted`: read classified characters
until a normal `"`, erroring on end of input. -/
def vtqLoop : Nat → CRState → List Nat → Except ReaderError (List Nat × CRState)
  | 0, _, _ => .error .outOfFuel
  | fuel + 1, s, acc =>
    if s.lastToken = .normal 34 then do
      let s' ← advWs s
      .ok (acc, s')
    else if s.lastToken = .eof then .error .unexpectedEof
    else
      match unwrapCharO s.lastToken with
      | Option.none => .error .panicked
      | some c => do
        let s' ← crAdvance s
        vtqLoop fuel s' (acc ++ [c])

/-- `KeyValues::visit_text_quoted`, entered while peeking the opening
quote. -/
def visitTextQuoted (s : CRState) : Except ReaderError (List Nat × CRState) := do
  let s' ← crAdvance s
  vtqLoop (s'.input.length + 2) s' []

/-- The loop of `KeyValues::visit_text_unquoted`, followed by the trailing
single whitespace advance. -/
def vtuLoop : Nat → CRState → List Nat → Except ReaderError (List Nat × CRState)
  | 0, _, _ => .error .outOfFuel
  | fuel + 1, s, acc =>
    if isUnquotedTextChar s.lastToken then
      match unwrapCharO s.lastToken with
      | Option.none => .error .panicked
      | some c => do
        let s' ← crAdvance s
        vtuLoop fuel s' (acc ++ [c])
    else do
      let s' ← if s.lastToken = .whitespace then crAdvance s else pure s
      .ok (acc, s')

/-- `KeyValues::visit_text_unquoted`. -/
def visitTextUnquoted (s : CRState) : Except ReaderError (List Nat × CRState) :=
  vtuLoop (s.input.length + 2) s []

/-- `KeyValues::visit_text`: dispatch on the peeked character being a
quote (note: `unwrap_char` also extracts from an escaped token). -/
def visitText (s : CRState) : Except ReaderError (List Nat × CRState) :=
  match unwrapCharO s.lastToken with
  | Option.none => .error .panicked
  | some c => if c = 34 then visitTextQuoted s else visitTextUnquoted s

/-- `Flag` (src/kv/reader.rs). -/
inductive Flag where
  | none
  | normal (name : List Nat)
  | negated (name : List Nat)
deriving DecidableEq, Repr

/-- `Value`: a string or a nested object.  An `Object` is the key →
(flag, value) map, modelled extensionally as an association list whose
keys are unique (see `insertAssoc`). -/
inductive Value where
  | str (s : List Nat)
  | obj (kv : List (List Nat × Flag × Value))

/-- The `Object` map type. -/
abbrev Object := List (List Nat × Flag × Value)

/-- The loop of `KeyValues::visit_flag` reading the flag name up to `]`. -/
def flagLoop : Nat → CRState → List Nat → Except ReaderError (List Nat × CRState)
  | 0, _, _ => .error .outOfFuel
  | fuel + 1, s, acc =>
    if s.lastToken = .normal 93 then .ok (acc, s)
    else if s.lastToken = .eof then .error .unexpectedEof
    else
      match unwrapCharO s.lastToken with
      | Option.none => .error .panicked
      | some c => do
        let s' ← crAdvance s
        flagLoop fuel s' (acc ++ [c])

/-- `KeyValues::visit_flag`: a missing `[` yields `Flag::None`; otherwise
read an optional `!` and the name up to `]`. -/
def visitFlag (s : CRState) : Except ReaderError (Flag × CRState) :=
  if s.lastToken ≠ .normal 91 then .ok (.none, s)
  else do
    let s ← advWs s
    let isNeg := s.lastToken = .normal 33
    let s ← if isNeg then advWs s else pure s
    let (name, s) ← flagLoop (s.input.length + 2) s []
    let s ← if s.lastToken = .whitespace then crAdvance s else pure s
    let s ← advWs s
    .ok (if isNeg then .negated name else .normal name, s)

mutual

/-- `KeyValues::visit_value`: `{` opens a nested object (the closing brace
is consumed by `visit_close`, whose `debug_assert!` is elided), a text
character starts a string value, anything else is an invalid character. -/
def visitValue : Nat → CRState → Except ReaderError (Value × CRState)
  | 0, _ => .error .outOfFuel
  | fuel + 1, s =>
    if s.lastToken = .normal 123 then do
      let s ← advWs s
      let (o, s) ← visitObject fuel s []
      let s ← advWs s
      .ok (.obj o, s)
    else if isUnquotedTextChar s.lastToken || s.lastToken = .normal 34 then do
      let (t, s) ← visitText s
      .ok (.str t, s)
    else .error (.invalidChar s.lastToken)

/-- `KeyValues::visit_object`: loop until end of input or a `}` at entry
position; each iteration reads key, value and optional flag and inserts,
overwriting any previous binding of the key. -/
def visitObject : Nat → CRState → Object → Except ReaderError (Object × CRState)
  | 0, _, _ => .error .outOfFuel
  | fuel + 1, s, acc =>
    if s.lastToken = .eof then .ok (acc, s)
    else
      match unwrapCharO s.lastToken with
      | Option.none => .error (.invalidChar s.lastToken)
      | some c =>
        if c = 125 then .ok (acc, s)
        else if c ≠ 34 && !(isUnquotedTextChar s.lastToken) then
          .error (.invalidChar s.lastToken)
        else do
          let (key, s) ← visitText s
          let (v, s) ← visitValue fuel s
          let (fl, s) ← visitFlag s
          visitObject fuel s (insertAssoc key (fl, v) acc)

end

/-- `KeyValues::from_io`: initialise the char reader and parse the root
object.  No end-of-input check follows the top-level loop. -/
def kvFromIo (input : List Nat) : Except ReaderError Object := do
  let s ← crInit input
  let (o, _) ← visitObject (4 * input.length + 16) s []
  .ok o

/-- `Object::get`: the value of a key regardless of its flag. -/
def Object.get (o : Object) (k : List Nat) : Option Value :=
  (lookupAssoc k o).map (·.2)

/-- `Object::get_with_flags`: filter the entry by its flag against the
caller's active-flag set. -/
def getWithFlags (o : Object) (k : List Nat) (flags : List (List Nat)) : Option Value :=
  match lookupAssoc k o with
  | Option.none => Option.none
  | some (fl, v) =>
    match fl with
    | .none => some v
    | .normal name => if name ∈ flags then some v else Option.none
    | .negated name => if name ∈ flags then Option.none else some v

end KV

namespace VPK

/-- Errors surfaced by the VPK loader (all `std::io::Error` values with
kind `InvalidData`/`NotFound` in the source); `outOfFuel` is an artifact
of the fueled embedding. -/
inductive VpkError where
  | invalidSignature
  | invalidVersion (v : Nat)
  | malformedTree
  | nonUtf8Name
  | outOfFuel
deriving DecidableEq, Repr

/-- Outcome of a VPK operation: an ordinary `Result`, or a Rust panic
(`expect`, out-of-range slice index). -/
inductive VRes (α : Type) where
  | ok (a : α)
  | err (e : VpkError)
  | panic
deriving DecidableEq, Repr

instance : Monad VRes where
  pure := .ok
  bind := fun m f =>
    match m with
    | .ok a => f a
    | .err e => .err e
    | .panic => .panic

/-- Little-endian value of `n` bytes at offset `off` (bytes beyond the
end read as the 0 the Rust code pre-filled its buffers with). -/
def leVal (data : List Nat) : Nat → Nat → Nat
  | _, 0 => 0
  | off, n + 1 => data.getD off 0 + 256 * leVal data (off + 1) n

/-- The `DIRECTORY_INDEX` sentinel (src/vpk/reader.rs). -/
def DIRECTORY_INDEX : Nat := 0x7FFF

/-- The `VPK_SIGNATURE` magic constant. -/
def VPK_SIGNATURE : Nat := 0x55aa1234

/-- `mem::size_of::<VPKHeaderV1>()`: three packed `u32` fields. -/
def headerV1Size : Nat := 12

/-- `mem::size_of::<VPKHeaderV2>()`: the v1 header plus four `u32`. -/
def headerV2Size : Nat := 28

/-- Continuation-byte test of the UTF-8 validation in `str::from_utf8`. -/
def isCont (c : Nat) : Bool := 128 ≤ c && c ≤ 191

/-- Validity predicate of `str::from_utf8` (standard UTF-8 with the
surrogate and over-long encodings excluded). -/
def utf8Valid : List Nat → Bool
  | [] => true
  | c :: rest =>
    if c ≤ 0x7F then utf8Valid rest
    else if c ≤ 0xC1 then false
    else if c ≤ 0xDF then
      match rest with
      | c1 :: r => isCont c1 && utf8Valid r
      | [] => false
    else if c ≤ 0xEF then
      match rest with
      | c1 :: c2 :: r =>
        (if c = 0xE0 then 0xA0 ≤ c1 && c1 ≤ 0xBF
         else if c = 0xED then 0x80 ≤ c1 && c1 ≤ 0x9F
         else isCont c1) && isCont c2 && utf8Valid r
      | _ => false
    else if c ≤ 0xF4 then
      match rest with
      | c1 :: c2 :: c3 :: r =>
        (if c = 0xF0 then 0x90 ≤ c1 && c1 ≤ 0xBF
         else if c = 0xF4 then 0x80 ≤ c1 && c1 ≤ 0x8F
         else isCont c1) && isCont c2 && isCont c3 && utf8Valid r
      | _ => false
    else false

/-- `VPK::read_string`: find the NUL terminator (`expect` panics when it
is absent), check UTF-8, and return the consumed length and the name's
bytes. -/
def readString (data : List Nat) : VRes (Nat × List Nat) :=
  match data.findIdx? (fun b => b == 0) with
  | Option.none => .panic
  | some t =>
    let nm := data.take t
    if utf8Valid nm then .ok (t + 1, nm) else .err .nonUtf8Name

/-- `Self::read_string(&loaded_data[position..])`: the slice itself
panics when `position` exceeds the buffer length. -/
def readStringAt (data : List Nat) (pos : Nat) : VRes (Nat × List Nat) :=
  if pos ≤ data.length then readString (data.drop pos) else .panic

/-- The packed `VPKDirectoryEntry` (little-endian, 18 bytes). -/
structure VPKDirectoryEntry where
  crc : Nat
  preloadBytes : Nat
  archiveIndex : Nat
  entryOffset : Nat
  entryLength : Nat
  terminator : Nat
deriving DecidableEq, Repr

/-- `VPKDirectoryEntry::read_from_prefix`: `none` when fewer than 18
bytes remain. -/
def decodeEntry (data : List Nat) : Option VPKDirectoryEntry :=
  if 18 ≤ data.length then
    some { crc := leVal data 0 4, preloadBytes := leVal data 4 2,
           archiveIndex := leVal data 6 2, entryOffset := leVal data 8 4,
           entryLength := leVal data 12 4, terminator := leVal data 16 2 }
  else Option.none

/-- Resolved per-file metadata (`VPKFile` in src/vpk/reader.rs). -/
structure VPKFile where
  crc : Nat
  preloadData : List Nat
  archiveIndex : Nat
  archiveOffset : Nat
  archiveLength : Nat
deriving DecidableEq, Repr

/-- The body of the inner loop of `VPK::load_tree` that turns a decoded
directory entry into a stored `VPKFile`: the absolute offset adds
`header_offset` exactly for the `DIRECTORY_INDEX` sentinel. -/
def mkVPKFile (e : VPKDirectoryEntry) (preload : List Nat) (headerOffset : Nat) : VPKFile :=
  { crc := e.crc, preloadData := preload, archiveIndex := e.archiveIndex,
    archiveOffset :=
      if e.archiveIndex = DIRECTORY_INDEX then e.entryOffset + headerOffset
      else e.entryOffset,
    archiveLength := e.entryLength }

/-- `&loaded_data[start..start + len]`: panics when the range leaves the
buffer. -/
def sliceRange (data : List Nat) (start len : Nat) : VRes (List Nat) :=
  if start + len ≤ data.length then .ok ((data.drop start).take len) else .panic

/-- The format's single-space quirk: a name of one space denotes the
empty string. -/
def mapSpace (s : List Nat) : List Nat := if s = [32] then [] else s

/-- Index key of a stored file: the (extension, path, file-name) triple
that `load_tree` assembles into the full relative `PathBuf` (the
`PathBuf` assembly itself is OS-library code and kept abstract as the
triple, which determines it). -/
abbrev PathKey := List Nat × List Nat × List Nat

/-- Inner loop of `VPK::load_tree` over file names: read a name (empty =
stop), decode the 18-byte entry, capture `preload_bytes` of inline data
and insert the resolved `VPKFile`. -/
def loadFilesLoop : Nat → List Nat → Nat → List Nat → List Nat → Nat →
    List (PathKey × VPKFile) → VRes (Nat × List (PathKey × VPKFile))
  | 0, _, _, _, _, _, _ => .err .outOfFuel
  | fuel + 1, data, hoff, ext, path, pos, acc => do
    let (n, fileName) ← readStringAt data pos
    let pos := pos + n
    if fileName = [] then .ok (pos, acc)
    else
      let fileName := mapSpace fileName
      match decodeEntry (data.drop pos) with
      | Option.none => .err .malformedTree
      | some e => do
        let pos := pos + 18
        let preload ← sliceRange data pos e.preloadBytes
        let pos := pos + e.preloadBytes
        loadFilesLoop fuel data hoff ext path pos
          (insertAssoc (ext, path, fileName) (mkVPKFile e preload hoff) acc)

/-- Middle loop of `VPK::load_tree` over paths. -/
def loadPathsLoop : Nat → List Nat → Nat → List Nat → Nat →
    List (PathKey × VPKFile) → VRes (Nat × List (PathKey × VPKFile))
  | 0, _, _, _, _, _ => .err .outOfFuel
  | fuel + 1, data, hoff, ext, pos, acc => do
    let (n, path) ← readStringAt data pos
    let pos := pos + n
    if path = [] then .ok (pos, acc)
    else
      let path := mapSpace path
      let (pos, acc) ← loadFilesLoop (data.length + 1) data hoff ext path pos acc
      loadPathsLoop fuel data hoff ext pos acc

/-- Outer loop of `VPK::load_tree` over extensions; it alone re-checks
`position < tree_size`. -/
def loadExtsLoop : Nat → List Nat → Nat → Nat →
    List (PathKey × VPKFile) → VRes (List (PathKey × VPKFile))
  | 0, _, _, _, _ => .err .outOfFuel
  | fuel + 1, data, hoff, pos, acc =>
    if pos < data.length then do
      let (n, ext) ← readStringAt data pos
      let pos := pos + n
      if ext = [] then .ok acc
      else
        let ext := mapSpace ext
        let (pos, acc) ← loadPathsLoop (data.length + 1) data hoff ext pos acc
        loadExtsLoop fuel data hoff pos acc
    else .ok acc

/-- `VPK::load_tree` on the in-memory tree bytes (`loaded_data`, whose
length is `tree_size`), with the caller's `header_offset`. -/
def loadTree (data : List Nat) (headerOffset : Nat) : VRes (List (PathKey × VPKFile)) :=
  loadExtsLoop (data.length + 1) data headerOffset 0 []

/-- Zero-padding of a short read into a pre-zeroed `vec![0u8; n]`. -/
def padTo (n : Nat) (l : List Nat) : List Nat := l ++ List.replicate (n - l.length) 0

/-- `VPK::load_internal` composed with `load_v1`/`load_v2`: validate the
signature, dispatch on the version and walk the tree with
`header size + tree_size` as the directory offset. -/
def vpkLoad (bytes : List Nat) : VRes (List (PathKey × VPKFile)) :=
  let signature := leVal bytes 0 4
  if signature ≠ VPK_SIGNATURE then .err .invalidSignature
  else
    let version := leVal bytes 4 4
    let treeSize := leVal bytes 8 4
    if version = 2 then
      loadTree (padTo treeSize ((bytes.drop headerV2Size).take treeSize))
        (headerV2Size + treeSize)
    else if version = 1 then
      loadTree (padTo treeSize ((bytes.drop headerV1Size).take treeSize))
        (headerV1Size + treeSize)
    else .err (.invalidVersion version)

/-- An open backing OS file: its whole content and its cursor. -/
structure FsFile where
  content : List Nat
  pos : Nat
deriving DecidableEq, Repr

/-- One `fs::File::read` call: return as many of the requested bytes as
remain after the cursor and advance the cursor. -/
def fsRead (f : FsFile) (n : Nat) : List Nat × FsFile :=
  let avail := f.content.length - f.pos
  let k := min n avail
  ((f.content.drop f.pos).take k, { f with pos := f.pos + k })

/-- The VPK file handle (`File` in src/vpk/reader.rs): an optional open
backing file, the entry metadata and the logical position. -/
structure VFile where
  fsFile : Option FsFile
  metadata : VPKFile
  position : Nat
deriving DecidableEq, Repr

/-- `2 ^ 64`, the `usize`/`u64` modulus. -/
def U64_MOD : Nat := 2 ^ 64

/-- Wrapping `usize`/`u64` subtraction (release-build semantics). -/
def u64sub (a b : Nat) : Nat := if b ≤ a then a - b else a + (U64_MOD - b)

/-- Wrapping `u64` addition. -/
def u64add (a b : Nat) : Nat := (a + b) % U64_MOD

/-- `as u64` on a signed value. -/
def u64ofInt (i : Int) : Nat := (i % (U64_MOD : Int)).toNat

/-- Overwrite `buf[off .. off + src.length]` with `src` (models
`clone_from_slice` and `read` into a sub-slice; callers stay in
bounds). -/
def writeAt (buf : List Nat) (off : Nat) (src : List Nat) : List Nat :=
  buf.take off ++ src ++ buf.drop (off + src.length)

/-- `<File as Read>::read`, byte for byte from the source: compute
`maximum_read`, serve the preload range, then read the backing file into
`read_buf[maximum_preload_read .. maximum_read - maximum_preload_read]`
(sic — the faulty upper bound is in the source), or the whole
`read_buf[..maximum_read]` when past the preload.  The logical position
is not updated.  Returns the new handle, the caller's buffer after the
call and the reported byte count. -/
def fileRead (f : VFile) (buf : List Nat) : VRes (VFile × List Nat × Nat) :=
  let preloadLen := f.metadata.preloadData.length
  let totalSize := f.metadata.archiveLength + preloadLen
  let position := f.position
  let maximumRead := min (u64sub totalSize position) buf.length
  if position < preloadLen then
    let maximumPreloadRead := min (preloadLen - position) maximumRead
    let buf1 := writeAt buf 0 ((f.metadata.preloadData.drop position).take maximumPreloadRead)
    match f.fsFile with
    | some file =>
      if maximumRead - maximumPreloadRead < maximumPreloadRead then .panic
      else
        let (bytes, file') := fsRead file ((maximumRead - maximumPreloadRead) - maximumPreloadRead)
        .ok ({ f with fsFile := some file' }, writeAt buf1 maximumPreloadRead bytes,
          maximumPreloadRead + bytes.length)
    | Option.none => .ok (f, buf1, maximumPreloadRead)
  else
    match f.fsFile with
    | some file =>
      let (bytes, file') := fsRead file maximumRead
      .ok ({ f with fsFile := some file' }, writeAt buf 0 bytes, maximumRead)
    | Option.none => .ok (f, buf, 0)

/-- `std::io::SeekFrom`. -/
inductive SeekFrom where
  | start (n : Nat)
  | current (ofs : Int)
  | fromEnd (ofs : Int)
deriving DecidableEq, Repr

/-- `<File as Seek>::seek`: compute the new logical position (note the
`End` origin uses `archive_length`, and `Current` adds the offset `as
u64`), then reposition an open backing file to `archive_offset +
max(position − preload_len, 0)`. -/
def fileSeek (f : VFile) (pos : SeekFrom) : VRes (VFile × Nat) :=
  let newPosition :=
    match pos with
    | .current ofs => u64add f.position (u64ofInt ofs)
    | .fromEnd ofs => u64ofInt ((f.metadata.archiveLength : Int) + ofs)
    | .start n => n
  let f := { f with position := newPosition }
  let f :=
    match f.fsFile with
    | some file =>
      let filePosition :=
        if f.metadata.preloadData.length ≤ newPosition then
          newPosition - f.metadata.preloadData.length
        else 0
      { f with fsFile := some { file with pos := u64add f.metadata.archiveOffset filePosition } }
    | Option.none => f
  .ok (f, newPosition)

/-- `File::len`: the source returns `archive_length` alone. -/
def fileLen (f : VFile) : Nat := f.metadata.archiveLength

end VPK

namespace KV

/-- Spec-side description of quoted-text reading (refinement target for
the amended claim): between the quotes `//` is not a comment and every
character except a backslash appears verbatim; a backslash is dropped and
the character following it (even a quote or slash) is taken literally; a
backslash as the final input character is an invalid-character error, and
end of input before the closing quote is an unexpected-end-of-input
error. -/
def quotedTextSpec : List Nat → Except ReaderError (List Nat)
  | [] => .error .unexpectedEof
  | c :: rest =>
    if c = 34 then .ok []
    else if c = 92 then
      match rest with
      | [] => .error .ioInvalidChar
      | d :: r => (quotedTextSpec r).map (d :: ·)
    else (quotedTextSpec rest).map (c :: ·)

/-- `quotedTextSpec` seen from the middle of the quoted loop: the current
classified token followed by the unread input. -/
def specCont : ReadChar → List Nat → Except ReaderError (List Nat)
  | .eof, _ => .error .unexpectedEof
  | .whitespace, _ => .error .panicked
  | .normal c, input => if c = 34 then .ok [] else (quotedTextSpec input).map (c :: ·)
  | .escaped c, input => (quotedTextSpec input).map (c :: ·)

end KV

/-- C2 failing input: two preload bytes, four archive bytes behind an
open backing file, position 0. -/
def c2File : VPK.VFile :=
  { fsFile := some { content := [1, 2, 3, 4], pos := 0 },
    metadata := { crc := 0, preloadData := [10, 11], archiveIndex := 0,
                  archiveOffset := 0, archiveLength := 4 },
    position := 0 }

/-- C3 failing input: no preload, one archive byte, backing file with
trailing unrelated bytes. -/
def c3File : VPK.VFile :=
  { fsFile := some { content := [7, 8, 9], pos := 0 },
    metadata := { crc := 0, preloadData := [], archiveIndex := 0,
                  archiveOffset := 0, archiveLength := 1 },
    position := 0 }

/-- `c3File` after `seek(SeekFrom::Start(2))`. -/
def c3Seeked : VPK.VFile :=
  { fsFile := some { content := [7, 8, 9], pos := 2 },
    metadata := { crc := 0, preloadData := [], archiveIndex := 0,
                  archiveOffset := 0, archiveLength := 1 },
    position := 2 }

/-- C4 failing input: four preload bytes and archive length 10. -/
def c4File : VPK.VFile :=
  { fsFile := Option.none,
    metadata := { crc := 0, preloadData := [1, 2, 3, 4], archiveIndex := 0,
                  archiveOffset := 0, archiveLength := 10 },
    position := 0 }

/-- A valid v1 VPK header prefix (signature then version 1), without the
tree-size field. -/
def c5HeaderV1 : List Nat := [0x34, 0x12, 0xaa, 0x55, 1, 0, 0, 0]

@[simp]
theorem except_bind_ok {ε α β : Type} (a : α) (f : α → Except ε β) :
    (Except.ok a : Except ε α) >>= f = f a := rfl

@[simp]
theorem except_bind_error {ε α β : Type} (e : ε) (f : α → Except ε β) :
    (Except.error e : Except ε α) >>= f = .error e := rfl

@[simp]
theorem vres_bind_ok {α β : Type} (a : α) (f : α → VPK.VRes β) :
    (VPK.VRes.ok a : VPK.VRes α) >>= f = f a := rfl

@[simp]
theorem vres_bind_err {α β : Type} (e : VPK.VpkError) (f : α → VPK.VRes β) :
    (VPK.VRes.err e : VPK.VRes α) >>= f = .err e := rfl

@[simp]
theorem vres_bind_panic {α β : Type} (f : α → VPK.VRes β) :
    (VPK.VRes.panic : VPK.VRes α) >>= f = .panic := rfl

theorem mem_of_mem_insertAssoc {α β : Type} [DecidableEq α] {k : α} {v : β}
    {l : List (α × β)} {p : α × β} (h : p ∈ insertAssoc k v l) :
    p = (k, v) ∨ p ∈ l := by
  simp only [insertAssoc, List.mem_cons] at h
  rcases h with h | h
  · exact Or.inl h
  · exact Or.inr (List.mem_of_mem_filter h)

/-- C1 counterexample: in `k "a\b"` the backslash between the quotes is
escape-processed by the char reader, so the parsed value is "ab", not the
verbatim "a\b" the claim requires. -/
theorem c1_quoted_backslash_counterexample :
    KV.kvFromIo [107, 32, 34, 97, 92, 98, 34] =
      .ok [([107], (KV.Flag.none, KV.Value.str [97, 98]))] ∧
    ([97, 98] : List Nat) ≠ [97, 92, 98] :=
  ⟨rfl, by decide⟩

/-- C6 counterexample: in `k v\` the trailing backslash makes the char
reader fail with its invalid-character error (surfacing as
`ReaderError::IO`), instead of the claim's literal-backslash success. -/
theorem c6_trailing_backslash_counterexample :
    KV.kvFromIo [107, 32, 118, 92] = .error .ioInvalidChar := rfl

/-- C6 (amended): in unquoted KV text a backslash escapes the next
character — classification yields `Escaped c` with the backslash
discarded, and `is_unquoted_text_char` accepts every escaped character,
so `c` joins the token literally even when structural or `/` (e.g.
`k a\{b` parses to value "a{b") — but a backslash that is the last input
character is an invalid-character error from the char reader, so the
parse fails rather than appending the backslash. -/
theorem c6_unquoted_escape_amended :
    (∀ (c : Nat) (rest : List Nat) (t : KV.ReadChar) (q : Bool),
      KV.advanceInternal ⟨92 :: c :: rest, t, q⟩ = .ok ⟨rest, .escaped c, q⟩) ∧
    (∀ c : Nat, KV.isUnquotedTextChar (.escaped c) = true) ∧
    (∀ (t : KV.ReadChar) (q : Bool),
      KV.advanceInternal ⟨[92], t, q⟩ = .error .ioInvalidChar) ∧
    KV.kvFromIo [107, 32, 97, 92, 123, 98] =
      .ok [([107], (KV.Flag.none, KV.Value.str [97, 123, 98]))] :=
  ⟨fun _ _ _ _ => rfl, fun _ => rfl, fun _ _ => rfl, rfl⟩

/-- C9: duplicate keys in one object are last-write-wins — the insert
`visit_object` uses leaves exactly one binding of the key, carrying the
newly inserted flag and value, and parsing "k 1\nk 2" succeeds with the
single entry k → "2". -/
theorem c9_duplicate_key_last_write_wins :
    (∀ (l : List (List Nat × KV.Flag × KV.Value)) (k : List Nat)
        (v : KV.Flag × KV.Value),
      lookupAssoc k (insertAssoc k v l) = some v ∧
      countKey k (insertAssoc k v l) = 1) ∧
    KV.kvFromIo [107, 32, 49, 10, 107, 32, 50] =
      .ok [([107], (KV.Flag.none, KV.Value.str [50]))] := by
  refine ⟨fun l k v => ⟨?_, ?_⟩, rfl⟩
  · simp [lookupAssoc, insertAssoc]
  · have hnil : List.filter (fun p => decide (p.1 = k))
        (List.filter (fun p => decide (p.1 ≠ k)) l) = [] := by
      rw [List.filter_eq_nil_iff]
      intro a ha
      have := List.of_mem_filter ha
      simpa using this
    simp [countKey, insertAssoc, hnil]

/-- C10 counterexample: the input `k }` has an unmatched CloseBlock at
top level, yet `from_io` errors with InvalidChar (the brace sits in value
position) instead of returning Ok. -/
theorem c10_unmatched_close_counterexample :
    KV.kvFromIo [107, 32, 125] = .error (.invalidChar (.normal 125)) := rfl

/-- C10 (amended): an unmatched `}` standing where an entry would start
ends the top-level loop — `visit_object` returns the accumulated entries
at once, leaving the brace and everything after it unexamined, so
`from_io` returns Ok with the entries parsed before the brace (e.g.
`a b } c {` parses to the single entry a → "b" although the ignored tail
is itself invalid); a `}` elsewhere can still make the parse fail. -/
theorem c10_close_block_amended :
    (∀ (fuel : Nat) (s : KV.CRState) (acc : KV.Object),
      s.lastToken = .normal 125 →
      KV.visitObject (fuel + 1) s acc = .ok (acc, s)) ∧
    KV.kvFromIo [97, 32, 98, 32, 125, 32, 99, 32, 123] =
      .ok [([97], (KV.Flag.none, KV.Value.str [98]))] := by
  refine ⟨fun fuel s acc h => ?_, rfl⟩
  rw [KV.visitObject, h]
  rfl

/-- Witness for the amended C10 theorem at a concrete state. -/
theorem c10_close_block_amended_witness :
    KV.visitObject 1 ⟨[], .normal 125, false⟩ [] =
      .ok ([], ⟨[], .normal 125, false⟩) :=
  c10_close_block_amended.1 0 ⟨[], .normal 125, false⟩ [] rfl

/-- C2: the claim fails on the source.  With two preload bytes, archive
length 4 and an open backing file: a 3-byte read panics, because the
archive part is read into `read_buf[2..1]` (the upper bound
`maximum_read - maximum_preload_read` is reversed); a 6-byte read copies
only 2 archive bytes and reports 4, instead of splicing
min(total − position, buffer) = 6 contiguous bytes. -/
theorem c2_read_splice_bug :
    VPK.fileRead c2File [0, 0, 0] = .panic ∧
    VPK.fileRead c2File [0, 0, 0, 0, 0, 0] =
      .ok ({ c2File with fsFile := some { content := [1, 2, 3, 4], pos := 2 } },
        [10, 11, 1, 2, 0, 0], 4) ∧
    (4 : Nat) ≠ min ((4 + 2) - 0) 6 :=
  ⟨rfl, rfl, by decide⟩

/-- C3: the claim fails on the source.  After seeking one past the end
(total logical length 1, position 2), `read` wraps the `usize`
subtraction `total_size - position`, reads one byte that lies beyond the
entry in the backing file and reports 1 byte, instead of the claimed
Ok(0). -/
theorem c3_read_past_end_bug :
    VPK.fileSeek c3File (.start 2) = .ok (c3Seeked, 2) ∧
    VPK.fileRead c3Seeked [0] =
      .ok ({ c3Seeked with fsFile := some { content := [7, 8, 9], pos := 3 } },
        [9], 1) ∧
    (1 : Nat) ≠ 0 :=
  ⟨rfl, rfl, by decide⟩

/-- C4: the claim fails on the source — `len()` returns `archive_length`
alone (10), not preload length + archive length (14). -/
theorem c4_len_bug :
    VPK.fileLen c4File = 10 ∧
    c4File.metadata.preloadData.length + c4File.metadata.archiveLength = 14 ∧
    VPK.fileLen c4File ≠
      c4File.metadata.preloadData.length + c4File.metadata.archiveLength :=
  ⟨rfl, rfl, by decide⟩

/-- C5: the claim fails on the source — a tree whose name has no NUL
terminator makes `read_string` panic through `expect`, while a non-UTF8
name is (as the claim says for both cases) a typed decode error. -/
theorem c5_unterminated_name_bug :
    VPK.vpkLoad (c5HeaderV1 ++ [3, 0, 0, 0] ++ [116, 120, 116]) = .panic ∧
    VPK.vpkLoad (c5HeaderV1 ++ [2, 0, 0, 0] ++ [255, 0]) = .err .nonUtf8Name :=
  ⟨rfl, rfl⟩

/-- C8: `get_with_flags` returns the value of an unflagged entry always,
of a `Normal name` entry exactly when the name is active, of a
`Negated name` entry exactly when it is not, and nothing for an absent
key. -/
theorem c8_get_with_flags :
    ∀ (o : KV.Object) (k : List Nat) (flags : List (List Nat)),
      (lookupAssoc k o = Option.none → KV.getWithFlags o k flags = Option.none) ∧
      (∀ v, lookupAssoc k o = some (KV.Flag.none, v) →
        KV.getWithFlags o k flags = some v) ∧
      (∀ n v, lookupAssoc k o = some (KV.Flag.normal n, v) →
        KV.getWithFlags o k flags = if n ∈ flags then some v else Option.none) ∧
      (∀ n v, lookupAssoc k o = some (KV.Flag.negated n, v) →
        KV.getWithFlags o k flags = if n ∈ flags then Option.none else some v) := by
  intro o k flags
  refine ⟨fun h => ?_, fun v h => ?_, fun n v h => ?_, fun n v h => ?_⟩ <;>
    simp [KV.getWithFlags, h]

/-- Witness for C8 at a concrete object, key and flag set. -/
theorem c8_get_with_flags_witness :
    KV.getWithFlags [([107], (KV.Flag.normal [102], KV.Value.str [118]))]
      [107] [[102]] = some (KV.Value.str [118]) := by
  have h := (c8_get_with_flags [([107], (KV.Flag.normal [102], KV.Value.str [118]))]
    [107] [[102]]).2.2.1 [102] (KV.Value.str [118]) rfl
  simpa using h

theorem advanceInternal_quoted :
    ∀ (s s' : KV.CRState), s.isQuoted = true → KV.advanceInternal s = .ok s' →
      KV.specCont s'.lastToken s'.input = KV.quotedTextSpec s.input ∧
      (s'.isQuoted = true ∨ s'.lastToken = .normal 34) ∧
      s'.lastToken ≠ .whitespace := by
  rintro ⟨inp, tok, q⟩ ⟨inp', tok', q'⟩ hq h
  obtain rfl : q = true := hq
  cases inp with
  | nil =>
    simp only [KV.advanceInternal, Except.ok.injEq, KV.CRState.mk.injEq] at h
    obtain ⟨rfl, rfl, rfl⟩ := h
    simp [KV.specCont, KV.quotedTextSpec]
  | cons c rest =>
    by_cases h92 : c = 92
    · subst h92
      cases rest with
      | nil => simp [KV.advanceInternal] at h
      | cons d r =>
        simp only [KV.advanceInternal, if_pos rfl, Except.ok.injEq,
          KV.CRState.mk.injEq] at h
        obtain ⟨rfl, rfl, rfl⟩ := h
        refine ⟨?_, Or.inl rfl, by simp⟩
        simp [KV.specCont, KV.quotedTextSpec]
    · by_cases h47 : c = 47
      · subst h47
        simp only [KV.advanceInternal, show ¬(47 = 92) by decide, if_false,
          if_pos rfl, if_true, Except.ok.injEq, KV.CRState.mk.injEq,
          reduceIte] at h
        obtain ⟨rfl, rfl, rfl⟩ := h
        refine ⟨?_, Or.inl rfl, by simp⟩
        rw [KV.quotedTextSpec.eq_def]
        simp [KV.specCont]
      · by_cases h34 : c = 34
        · subst h34
          simp only [KV.advanceInternal, Except.ok.injEq, KV.CRState.mk.injEq,
            reduceIte] at h
          obtain ⟨rfl, rfl, rfl⟩ := h
          refine ⟨?_, Or.inr rfl, by simp⟩
          rw [KV.quotedTextSpec.eq_def]
          simp [KV.specCont]
        · simp only [KV.advanceInternal, if_neg h92, if_neg h47, if_neg h34,
            if_true, Except.ok.injEq, KV.CRState.mk.injEq, reduceIte] at h
          obtain ⟨rfl, rfl, rfl⟩ := h
          refine ⟨?_, Or.inl rfl, by simp⟩
          rw [KV.quotedTextSpec.eq_def]
          simp [KV.specCont, h34, h92]

theorem vtqLoop_sim :
    ∀ (fuel : Nat) (s : KV.CRState) (acc out : List Nat) (s' : KV.CRState),
      (s.isQuoted = true ∨ s.lastToken = .normal 34) →
      KV.vtqLoop fuel s acc = .ok (out, s') →
      ∃ tail, out = acc ++ tail ∧ KV.specCont s.lastToken s.input = .ok tail := by
  intro fuel
  induction fuel with
  | zero => intro s acc out s' _ h; simp [KV.vtqLoop] at h
  | succ fuel ih =>
    intro s acc out s' hinv h
    rw [KV.vtqLoop] at h
    by_cases h34 : s.lastToken = .normal 34
    · rw [if_pos h34] at h
      cases hadv : KV.advWs s with
      | error e => rw [hadv] at h; simp at h
      | ok s2 =>
        rw [hadv] at h
        simp only [except_bind_ok, Except.ok.injEq, Prod.mk.injEq] at h
        exact ⟨[], by simp [h.1], by simp [KV.specCont, h34]⟩
    · rw [if_neg h34] at h
      by_cases heof : s.lastToken = .eof
      · rw [if_pos heof] at h; simp at h
      · rw [if_neg heof] at h
        have hq : s.isQuoted = true := hinv.resolve_right h34
        cases htok : s.lastToken with
        | whitespace => rw [htok] at h; simp [KV.unwrapCharO] at h
        | eof => exact absurd htok heof
        | normal c =>
          have hc34 : c ≠ 34 := by rintro rfl; exact h34 htok
          rw [htok] at h
          simp only [KV.unwrapCharO] at h
          have hcr : KV.crAdvance s = KV.advanceInternal s := by
            rw [KV.crAdvance, if_neg (by rw [htok]; simp)]
          rw [hcr] at h
          cases hai : KV.advanceInternal s with
          | error e => rw [hai] at h; simp at h
          | ok s2 =>
            rw [hai] at h
            simp only [except_bind_ok] at h
            obtain ⟨hspec, hinv2, _⟩ := advanceInternal_quoted s s2 hq hai
            obtain ⟨tail, htail, hsc⟩ := ih s2 (acc ++ [c]) out s' hinv2 h
            refine ⟨c :: tail, by simp [htail], ?_⟩
            have hqs : KV.quotedTextSpec s.input = .ok tail := hspec.symm.trans hsc
            simp only [KV.specCont, if_neg hc34]
            rw [hqs]
            rfl
        | escaped c =>
          rw [htok] at h
          simp only [KV.unwrapCharO] at h
          have hcr : KV.crAdvance s = KV.advanceInternal s := by
            rw [KV.crAdvance, if_neg (by rw [htok]; simp)]
          rw [hcr] at h
          cases hai : KV.advanceInternal s with
          | error e => rw [hai] at h; simp at h
          | ok s2 =>
            rw [hai] at h
            simp only [except_bind_ok] at h
            obtain ⟨hspec, hinv2, _⟩ := advanceInternal_quoted s s2 hq hai
            obtain ⟨tail, htail, hsc⟩ := ih s2 (acc ++ [c]) out s' hinv2 h
            refine ⟨c :: tail, by simp [htail], ?_⟩
            have hqs : KV.quotedTextSpec s.input = .ok tail := hspec.symm.trans hsc
            simp only [KV.specCont]
            rw [hqs]
            rfl

/-- C1 (amended): between the quotes of a quoted KV text token, `//` is
not a comment start and every character except a backslash appears
verbatim; a backslash, however, is escape-processed — it is discarded and
the character after it (even a quote or slash) is appended literally —
so the produced string is exactly `quotedTextSpec` of the bytes after the
opening quote. -/
theorem c1_quoted_text_amended :
    ∀ (input out : List Nat) (s' : KV.CRState),
      KV.visitTextQuoted ⟨input, .normal 34, true⟩ = .ok (out, s') →
      KV.quotedTextSpec input = .ok out := by
  intro input out s' h
  rw [KV.visitTextQuoted] at h
  have hcr : KV.crAdvance ⟨input, .normal 34, true⟩ =
      KV.advanceInternal ⟨input, .normal 34, true⟩ := by
    rw [KV.crAdvance, if_neg (by simp)]
  rw [hcr] at h
  cases hai : KV.advanceInternal ⟨input, .normal 34, true⟩ with
  | error e => rw [hai] at h; simp at h
  | ok s1 =>
    rw [hai] at h
    simp only [except_bind_ok] at h
    obtain ⟨hspec, hinv1, _⟩ := advanceInternal_quoted _ s1 rfl hai
    obtain ⟨tail, htail, hsc⟩ := vtqLoop_sim _ s1 [] out s' hinv1 h
    rw [htail]
    simpa using hspec ▸ hsc

/-- Witness for the amended C1 at the content `a//b\"c` followed by the
closing quote: both the parser and the spec give `a//b"c`. -/
theorem c1_quoted_text_amended_witness :
    KV.quotedTextSpec [97, 47, 47, 98, 92, 34, 99, 34] =
      .ok [97, 47, 47, 98, 34, 99] :=
  c1_quoted_text_amended [97, 47, 47, 98, 92, 34, 99, 34] [97, 47, 47, 98, 34, 99]
    ⟨[], .eof, false⟩ rfl

theorem loadFilesLoop_files :
    ∀ (fuel : Nat) (data : List Nat) (hoff : Nat) (ext path : List Nat) (pos : Nat)
      (acc : List (VPK.PathKey × VPK.VPKFile)) (out : Nat × List (VPK.PathKey × VPK.VPKFile)),
      VPK.loadFilesLoop fuel data hoff ext path pos acc = .ok out →
      ∀ p ∈ out.2, p ∈ acc ∨ ∃ e pl, p.2 = VPK.mkVPKFile e pl hoff := by
  intro fuel
  induction fuel with
  | zero => intro data hoff ext path pos acc out h; simp [VPK.loadFilesLoop] at h
  | succ fuel ih =>
    intro data hoff ext path pos acc out h p hp
    rw [VPK.loadFilesLoop] at h
    cases h1 : VPK.readStringAt data pos with
    | err e => rw [h1] at h; simp at h
    | panic => rw [h1] at h; simp at h
    | ok nf =>
      obtain ⟨n, fileName⟩ := nf
      rw [h1] at h
      simp only [vres_bind_ok] at h
      by_cases hemp : fileName = []
      · rw [if_pos hemp] at h
        simp only [VPK.VRes.ok.injEq] at h
        subst h
        exact Or.inl hp
      · rw [if_neg hemp] at h
        cases h2 : VPK.decodeEntry (data.drop (pos + n)) with
        | none => rw [h2] at h; simp at h
        | some e =>
          rw [h2] at h
          dsimp only at h
          cases h3 : VPK.sliceRange data (pos + n + 18) e.preloadBytes with
          | err e2 => rw [h3] at h; simp at h
          | panic => rw [h3] at h; simp at h
          | ok preload =>
            rw [h3] at h
            simp only [vres_bind_ok] at h
            rcases ih data hoff ext path _ _ _ h p hp with hmem | hex
            · rcases mem_of_mem_insertAssoc hmem with heq | hmem2
              · exact Or.inr ⟨e, preload, by rw [heq]⟩
              · exact Or.inl hmem2
            · exact Or.inr hex

theorem loadPathsLoop_files :
    ∀ (fuel : Nat) (data : List Nat) (hoff : Nat) (ext : List Nat) (pos : Nat)
      (acc : List (VPK.PathKey × VPK.VPKFile)) (out : Nat × List (VPK.PathKey × VPK.VPKFile)),
      VPK.loadPathsLoop fuel data hoff ext pos acc = .ok out →
      ∀ p ∈ out.2, p ∈ acc ∨ ∃ e pl, p.2 = VPK.mkVPKFile e pl hoff := by
  intro fuel
  induction fuel with
  | zero => intro data hoff ext pos acc out h; simp [VPK.loadPathsLoop] at h
  | succ fuel ih =>
    intro data hoff ext pos acc out h p hp
    rw [VPK.loadPathsLoop] at h
    cases h1 : VPK.readStringAt data pos with
    | err e => rw [h1] at h; simp at h
    | panic => rw [h1] at h; simp at h
    | ok np =>
      obtain ⟨n, path⟩ := np
      rw [h1] at h
      simp only [vres_bind_ok] at h
      by_cases hemp : path = []
      · rw [if_pos hemp] at h
        simp only [VPK.VRes.ok.injEq] at h
        subst h
        exact Or.inl hp
      · rw [if_neg hemp] at h
        cases h2 : VPK.loadFilesLoop (data.length + 1) data hoff ext
            (VPK.mapSpace path) (pos + n) acc with
        | err e => rw [h2] at h; simp at h
        | panic => rw [h2] at h; simp at h
        | ok mid =>
          obtain ⟨pos2, acc2⟩ := mid
          rw [h2] at h
          simp only [vres_bind_ok] at h
          rcases ih data hoff ext _ _ _ h p hp with hmem | hex
          · rcases loadFilesLoop_files _ data hoff ext _ _ _ _ h2 p hmem with hm2 | hex2
            · exact Or.inl hm2
            · exact Or.inr hex2
          · exact Or.inr hex

theorem loadExtsLoop_files :
    ∀ (fuel : Nat) (data : List Nat) (hoff : Nat) (pos : Nat)
      (acc out : List (VPK.PathKey × VPK.VPKFile)),
      VPK.loadExtsLoop fuel data hoff pos acc = .ok out →
      ∀ p ∈ out, p ∈ acc ∨ ∃ e pl, p.2 = VPK.mkVPKFile e pl hoff := by
  intro fuel
  induction fuel with
  | zero => intro data hoff pos acc out h; simp [VPK.loadExtsLoop] at h
  | succ fuel ih =>
    intro data hoff pos acc out h p hp
    rw [VPK.loadExtsLoop] at h
    by_cases hlt : pos < data.length
    · rw [if_pos hlt] at h
      cases h1 : VPK.readStringAt data pos with
      | err e => rw [h1] at h; simp at h
      | panic => rw [h1] at h; simp at h
      | ok ne2 =>
        obtain ⟨n, ext⟩ := ne2
        rw [h1] at h
        simp only [vres_bind_ok] at h
        by_cases hemp : ext = []
        · rw [if_pos hemp] at h
          simp only [VPK.VRes.ok.injEq] at h
          subst h
          exact Or.inl hp
        · rw [if_neg hemp] at h
          cases h2 : VPK.loadPathsLoop (data.length + 1) data hoff
              (VPK.mapSpace ext) (pos + n) acc with
          | err e => rw [h2] at h; simp at h
          | panic => rw [h2] at h; simp at h
          | ok mid =>
            obtain ⟨pos2, acc2⟩ := mid
            rw [h2] at h
            simp only [vres_bind_ok] at h
            rcases ih data hoff _ _ _ h p hp with hmem | hex
            · rcases loadPathsLoop_files _ data hoff _ _ _ _ h2 p hmem with hm2 | hex2
              · exact Or.inl hm2
              · exact Or.inr hex2
            · exact Or.inr hex
    · rw [if_neg hlt] at h
      simp only [VPK.VRes.ok.injEq] at h
      subst h
      exact Or.inl hp

/-- C7: every file stored while decoding a directory tree is built by the
single constructor `mkVPKFile`, whose absolute archive offset adds the
caller's header offset exactly when the archive index is the
`DIRECTORY_INDEX` sentinel and is the raw entry offset otherwise; and the
v1/v2 loaders pass `header size + tree_size` as that offset. -/
theorem c7_archive_offset :
    (∀ (data : List Nat) (hoff : Nat) (files : List (VPK.PathKey × VPK.VPKFile))
        (p : VPK.PathKey × VPK.VPKFile),
      VPK.loadTree data hoff = .ok files → p ∈ files →
      ∃ e pl, p.2 = VPK.mkVPKFile e pl hoff ∧
        p.2.archiveOffset =
          (if e.archiveIndex = VPK.DIRECTORY_INDEX then e.entryOffset + hoff
           else e.entryOffset)) ∧
    (∀ (bytes : List Nat), VPK.leVal bytes 0 4 = VPK.VPK_SIGNATURE →
      VPK.leVal bytes 4 4 = 1 →
      VPK.vpkLoad bytes =
        VPK.loadTree
          (VPK.padTo (VPK.leVal bytes 8 4)
            ((bytes.drop VPK.headerV1Size).take (VPK.leVal bytes 8 4)))
          (VPK.headerV1Size + VPK.leVal bytes 8 4)) ∧
    (∀ (bytes : List Nat), VPK.leVal bytes 0 4 = VPK.VPK_SIGNATURE →
      VPK.leVal bytes 4 4 = 2 →
      VPK.vpkLoad bytes =
        VPK.loadTree
          (VPK.padTo (VPK.leVal bytes 8 4)
            ((bytes.drop VPK.headerV2Size).take (VPK.leVal bytes 8 4)))
          (VPK.headerV2Size + VPK.leVal bytes 8 4)) := by
  refine ⟨fun data hoff files p h hp => ?_, fun bytes hsig hver => ?_, fun bytes hsig hver => ?_⟩
  · rcases loadExtsLoop_files _ data hoff 0 [] files h p hp with hmem | ⟨e, pl, hpe⟩
    · simp at hmem
    · exact ⟨e, pl, hpe, by rw [hpe]; rfl⟩
  · rw [VPK.vpkLoad]
    rw [if_neg (by rw [hsig]; simp), hver]
    norm_num
  · rw [VPK.vpkLoad]
    rw [if_neg (by rw [hsig]; simp), hver]
    simp

/-- Witness for C7 at a one-entry v1 archive whose entry uses the
`DIRECTORY_INDEX` sentinel with entry offset 5 and a 29-byte tree: the
stored offset is 5 + (12 + 29). -/
theorem c7_archive_offset_witness :
    (∃ e pl,
      ({ crc := 0, preloadData := [], archiveIndex := 0x7FFF,
         archiveOffset := 46, archiveLength := 7 } : VPK.VPKFile) =
          VPK.mkVPKFile e pl 41 ∧
        (46 : Nat) =
          (if e.archiveIndex = VPK.DIRECTORY_INDEX then e.entryOffset + 41
           else e.entryOffset)) := by
  have h := c7_archive_offset.1
    ([116, 120, 116, 0, 97, 0, 98, 0, 0, 0, 0, 0, 0, 0, 0xFF, 0x7F, 5, 0, 0, 0,
      7, 0, 0, 0, 0xFF, 0xFF, 0, 0, 0]) 41
    [(([116, 120, 116], [97], [98]),
      { crc := 0, preloadData := [], archiveIndex := 0x7FFF,
        archiveOffset := 46, archiveLength := 7 })]
    (([116, 120, 116], [97], [98]),
      { crc := 0, preloadData := [], archiveIndex := 0x7FFF,
        archiveOffset := 46, archiveLength := 7 })
    rfl (List.mem_singleton.mpr rfl)
  simpa using h

end Srcrs
